import Mathlib

/-!
Verification of the package.json discovery and ranking engine of the
command-runner extension.

The development shallowly embeds the two core components:

* the Discovery Engine (`packageJsonDiscovery.ts`): bidirectional search
  (`searchUpward`, `searchDownward`), manifest parsing
  (`parsePackageJson`), scoring (`calculateScores`), the cached entry
  point `discoverPackageJsonFiles`, and the derived operations
  `getBestPackageJson` and `getWorkspacePackageJsonFiles`;
* the Context Analyzer (`projectDetector.ts`, class
  `SmartDetectionService`): `filterRelevantPackageJsons`,
  `detectProjectType`, `findRootPackageJson`, `analyzeProjectContext`
  and `shouldUseSpecificPackageJson`.

Modelling conventions:

* Filesystem paths are lists of components from the root, so the string
  `"/repo/pkgs/a"` is `["repo", "pkgs", "a"]` and the Node function
  `path.dirname` is `List.dropLast` (the parent of the root is the
  root, matching `path.dirname("/") === "/"`).  `path.join(dir, name)`
  is `dir ++ [name]`.  The string-level `String.prototype.startsWith`
  used by `getWorkspaceRoot` is rendered as component-wise list prefix.
* The asynchronous filesystem capability is a record of pure functions
  (`Fs`).  `read` returning `none` models a thrown read error or a
  missing file; `readdir` returning `none` models a thrown directory
  listing error; `decode` abstracts `JSON.parse` composed with the
  field extraction of the manifest schema, returning `none` on
  malformed content.  `access` models `fs.promises.access(_, F_OK)`
  and the `vscode.workspace.fs.stat` existence probe.
* Scores are JavaScript numbers, but every score the engine ever
  stores is a sum of integer bonuses (and the `+100` analyzer bump),
  on which binary floating point is exact; they are modelled as
  integers.  The one fractional computation, the `1.5×` dominance
  comparison of `shouldUseSpecificPackageJson` (exact on these
  half-integer products), is carried out in `ℚ`.
* The in-place `results.sort((a, b) => b.score - a.score)` sorts
  descending by score and, being a stable sort (as required of
  `Array.prototype.sort`), keeps ties in their original order; it is
  modelled by a stable insertion sort with the same comparator.
* Depth limits are naturals; the in-repository callers only ever use
  the nonnegative defaults and literals 0, 1, 2, 5, 10.
* The two stateful services are rendered in explicit state-passing
  style over `ServiceState` (the discovery cache plus the known
  workspace roots).  JavaScript aliasing matters in exactly one place:
  the array stored in the discovery cache is the very array returned
  to callers, so the in-place mutation `pkg.score += 100` performed by
  `filterRelevantPackageJsons` is visible in the cache; the embedding
  renders this by updating the cache entry under the key used by the
  discovery call that produced the array.
-/

namespace CommandRunner

/-- A filesystem path, as the list of its components from the root. -/
abbrev FsPath : Type := List String

/-- Node `path.dirname`: drop the last component; the root is its own
parent, matching the `parentPath !== currentPath` stop condition. -/
def dirname (p : FsPath) : FsPath := p.dropLast

/-- One entry of `fs.promises.readdir(_, { withFileTypes: true })`. -/
structure Dirent where
  name : String
  isDirectory : Bool
deriving DecidableEq, Repr

/-- The declared `workspaces` field of a manifest: either an array of
glob patterns or an object containing a `packages` array. -/
inductive Workspaces where
  | arr (patterns : List String)
  | obj (packages : List String)
deriving DecidableEq, Repr

/-- The result of `JSON.parse` on a manifest file, restricted to the
fields the engine reads (`name`, `version`, `scripts`, `workspaces`). -/
structure PkgJson where
  name : Option String
  version : Option String
  scripts : Option (List (String × String))
  workspaces : Option Workspaces
deriving DecidableEq, Repr

/-- The filesystem capability consumed by the engine. -/
structure Fs where
  access : FsPath → Bool
  read : FsPath → Option String
  decode : String → Option PkgJson
  readdir : FsPath → Option (List Dirent)

/-- Interface `PackageJsonInfo` of `packageJsonDiscovery.ts`. -/
structure PackageJsonInfo where
  path : FsPath
  directory : FsPath
  name : Option String
  version : Option String
  scripts : List (String × String)
  isWorkspaceRoot : Bool
  isMonorepoRoot : Bool
  workspaces : Option Workspaces
  distance : Nat
  score : ℤ
deriving DecidableEq, Repr

/-- Interface `DiscoveryOptions` (all fields optional). -/
structure DiscoveryOptions where
  maxDepthUp : Option Nat := none
  maxDepthDown : Option Nat := none
  includeNodeModules : Option Bool := none
  workspaceRootsOnly : Option Bool := none
  cacheResults : Option Bool := none
deriving DecidableEq, Repr

/-- Type `Required<DiscoveryOptions>`, the shape of `DEFAULT_OPTIONS` and of
the resolved options `opts = { ...DEFAULT_OPTIONS, ...options }`. -/
structure ResolvedOptions where
  maxDepthUp : Nat
  maxDepthDown : Nat
  includeNodeModules : Bool
  workspaceRootsOnly : Bool
  cacheResults : Bool
deriving DecidableEq, Repr

/-- Source constant `PackageJsonDiscoveryService.DEFAULT_OPTIONS`. -/
def DEFAULT_OPTIONS : ResolvedOptions :=
  { maxDepthUp := 10
    maxDepthDown := 5
    includeNodeModules := false
    workspaceRootsOnly := false
    cacheResults := true }

/-- The spread `{ ...DEFAULT_OPTIONS, ...options }`: each absent field
falls back to its default. -/
def resolveOptions (options : DiscoveryOptions) : ResolvedOptions :=
  { maxDepthUp := options.maxDepthUp.getD DEFAULT_OPTIONS.maxDepthUp
    maxDepthDown := options.maxDepthDown.getD DEFAULT_OPTIONS.maxDepthDown
    includeNodeModules := options.includeNodeModules.getD DEFAULT_OPTIONS.includeNodeModules
    workspaceRootsOnly := options.workspaceRootsOnly.getD DEFAULT_OPTIONS.workspaceRootsOnly
    cacheResults := options.cacheResults.getD DEFAULT_OPTIONS.cacheResults }

/-- View a resolved options record as a `DiscoveryOptions` argument
(used where the source passes an already-resolved `opts` object on to
`discoverPackageJsonFiles`, which re-resolves it — a no-op). -/
def ResolvedOptions.toOptions (r : ResolvedOptions) : DiscoveryOptions :=
  { maxDepthUp := some r.maxDepthUp
    maxDepthDown := some r.maxDepthDown
    includeNodeModules := some r.includeNodeModules
    workspaceRootsOnly := some r.workspaceRootsOnly
    cacheResults := some r.cacheResults }

/-- The cache key `` `${startPath}:${JSON.stringify(opts)}` ``: the
start path together with the resolved options (the serialization is
injective on these components). -/
abbrev CacheKey : Type := FsPath × ResolvedOptions

/-- The discovery cache `Map<string, PackageJsonInfo[]>`. -/
abbrev Cache : Type := List (CacheKey × List PackageJsonInfo)

/-- Operation `Map.get`: the most recently set binding of the key. -/
def cacheLookup (c : Cache) (k : CacheKey) : Option (List PackageJsonInfo) :=
  (c.find? (fun e => decide (e.1 = k))).map (·.2)

/-- Operation `Map.set`: bind the key, shadowing any earlier binding. -/
def cacheInsert (c : Cache) (k : CacheKey) (v : List PackageJsonInfo) : Cache :=
  (k, v) :: c

/-- The mutable fields of `PackageJsonDiscoveryService`: the discovery
cache and the known workspace roots. -/
structure ServiceState where
  cache : Cache
  workspaceRoots : List FsPath
deriving Repr

/-- Name of a manifest file. -/
def manifestFileName : String := "package.json"

/-- Build the `PackageJsonInfo` record from a successfully parsed
manifest, mirroring the object literal of `parsePackageJson`
(lines 229-240): `scripts` defaults to the empty mapping,
`isWorkspaceRoot` is `this.workspaceRoots.includes(directory)`, and
`isMonorepoRoot` is `!!(packageJson.workspaces)` (the declared value
has array-or-object type, on which truthiness is presence). -/
def mkPackageJsonInfo (workspaceRoots : List FsPath) (packageJsonPath : FsPath)
    (distance : Nat) (pkg : PkgJson) : PackageJsonInfo :=
  let directory := dirname packageJsonPath
  { path := packageJsonPath
    directory := directory
    name := pkg.name
    version := pkg.version
    scripts := pkg.scripts.getD []
    isWorkspaceRoot := workspaceRoots.contains directory
    isMonorepoRoot := pkg.workspaces.isSome
    workspaces := pkg.workspaces
    distance := distance
    score := 0 }

/-- Source method `parsePackageJson` (lines 220-244): the whole body is wrapped in
`try/catch`, so a failing read (`fs.promises.readFile` throwing) or
malformed content (`JSON.parse` throwing) yields `null`, never an
error. -/
def parsePackageJson (fs : Fs) (workspaceRoots : List FsPath)
    (packageJsonPath : FsPath) (distance : Nat) : Option PackageJsonInfo :=
  match fs.read packageJsonPath with
  | none => none
  | some content =>
    match fs.decode content with
    | none => none
    | some pkg => some (mkPackageJsonInfo workspaceRoots packageJsonPath distance pkg)

/-- Source method `fileExists` (lines 191-198): `fs.promises.access(_, F_OK)`. -/
def fileExists (fs : Fs) (filePath : FsPath) : Bool := fs.access filePath

/-- The fixed skip list of `shouldSkipDirectory` (lines 204-212). -/
def skipDirs : List String :=
  [".git", ".svn", ".hg",
   ".vscode", ".idea",
   "dist", "build", "out",
   ".next", ".nuxt",
   "coverage", ".nyc_output",
   "tmp", "temp",
   "__pycache__", ".pytest_cache"]

/-- Source method `shouldSkipDirectory` (line 214); note the JavaScript precedence
`(a && b) || c`. -/
def shouldSkipDirectory (dirName : String) : Bool :=
  (dirName.startsWith "." && !(dirName.startsWith "..")) || skipDirs.contains dirName

/-- The pair of mutable accumulators `results` and `visited` threaded
through both traversals of one discovery run. -/
structure SearchState where
  results : List PackageJsonInfo
  visited : List FsPath
deriving Repr

/-- Check the current directory for a manifest and append the parsed
entry to `results` — the shared body of the two traversals
(lines 122-128 and 155-161). -/
def visitDirectory (fs : Fs) (workspaceRoots : List FsPath)
    (currentPath : FsPath) (depth : Nat)
    (results : List PackageJsonInfo) : List PackageJsonInfo :=
  let packageJsonPath := currentPath ++ [manifestFileName]
  if fileExists fs packageJsonPath then
    match parsePackageJson fs workspaceRoots packageJsonPath depth with
    | some info => results ++ [info]
    | none => results
  else results

/-- Source method `searchUpward` (lines 107-135): check the current directory, then
ascend to the parent, stopping at `maxDepth` hops or at the root
(parent equal to self).  The structural `fuel` argument only bounds
the recursion for Lean: the engine starts every ascent with
`fuel = startPath.length + 1`, and each step shortens the current path
by one component, so `fuel` cannot reach `0` before the root stop. -/
def searchUpward (fs : Fs) (workspaceRoots : List FsPath) (maxDepth : Nat)
    (fuel : Nat) (currentPath : FsPath) (depth : Nat) (st : SearchState) : SearchState :=
  if maxDepth < depth ∨ currentPath ∈ st.visited then st
  else
    match fuel with
    | 0 => st
    | fuel' + 1 =>
      let visited1 := currentPath :: st.visited
      let results1 := visitDirectory fs workspaceRoots currentPath depth st.results
      if dirname currentPath = currentPath then ⟨results1, visited1⟩
      else searchUpward fs workspaceRoots maxDepth fuel' (dirname currentPath) (depth + 1)
        ⟨results1, visited1⟩

/-- Source method `searchDownward` (lines 140-186): check the current directory,
then recurse into the child directories listed by `readdir` (the
`for` loop with its three `continue` filters is the fold); a throwing
`readdir` is treated as an empty listing.  The structural `fuel`
argument only bounds the recursion depth for Lean: every call made by
the engine starts with `fuel = maxDepth + 1` and each level consumes
one unit, so `fuel` reaches `0` only at `depth = maxDepth + 1`, where
the depth guard of the source has already returned. -/
def searchDownward (fs : Fs) (workspaceRoots : List FsPath)
    (options : ResolvedOptions) (fuel : Nat) (maxDepth : Nat)
    (currentPath : FsPath) (depth : Nat) (st : SearchState) : SearchState :=
  if maxDepth < depth ∨ currentPath ∈ st.visited then st
  else
    match fuel with
    | 0 => st
    | fuel' + 1 =>
      let visited1 := currentPath :: st.visited
      let results1 := visitDirectory fs workspaceRoots currentPath depth st.results
      match fs.readdir currentPath with
      | none => ⟨results1, visited1⟩
      | some entries =>
        entries.foldl (fun acc entry =>
          if !entry.isDirectory then acc
          else if !options.includeNodeModules && entry.name == "node_modules" then acc
          else if shouldSkipDirectory entry.name then acc
          else
            searchDownward fs workspaceRoots options fuel' maxDepth
              (currentPath ++ [entry.name]) (depth + 1) acc)
          ⟨results1, visited1⟩

/-- Names checked by the `commonScripts` bonus (line 276). -/
def commonScripts : List String := ["start", "dev", "build", "test", "lint"]

/-- The score assigned to one entry by `calculateScores`
(lines 253-293).  The common-script bonus tests
`info.scripts![script]` for truthiness, so a script bound to the empty
command string does not count. -/
def computeScore (hasPackageJsonAtStartPath : Bool) (startPath : FsPath)
    (info : PackageJsonInfo) : ℤ :=
  max 0 (100 - (info.distance : ℤ) * 10)
  + (if info.isWorkspaceRoot then 50 else 0)
  + (if info.isMonorepoRoot then 30 else 0)
  + (if 0 < info.scripts.length then 20 else 0)
  + (if commonScripts.any (fun s => ((List.lookup s info.scripts).getD "") != "") then 15 else 0)
  + (if info.directory = startPath then 25 else 0)
  + (if !hasPackageJsonAtStartPath && info.distance == 1 then 40 else 0)

/-- Source method `calculateScores` (lines 249-295): recompute every score of the
result set in place. -/
def calculateScores (results : List PackageJsonInfo) (startPath : FsPath) :
    List PackageJsonInfo :=
  let hasPackageJsonAtStartPath :=
    results.any (fun info => decide (info.directory = startPath) && info.distance == 0)
  results.map (fun info =>
    { info with score := computeScore hasPackageJsonAtStartPath startPath info })

/-- Insert an element into a list already sorted descending by score,
in front of the first strictly smaller-or-equal score — the element
being inserted comes from earlier in the original array than every
element of the sorted suffix, so this placement is the stable one. -/
def insertByScore (e : PackageJsonInfo) : List PackageJsonInfo → List PackageJsonInfo
  | [] => [e]
  | x :: xs => if x.score ≤ e.score then e :: x :: xs else x :: insertByScore e xs

/-- The in-place `results.sort((a, b) => b.score - a.score)`:
descending by score, ties keeping the original order
(`Array.prototype.sort` is stable); a stable sort for a total preorder
is unique, so stable insertion sort models it exactly. -/
def sortByScoreDesc (results : List PackageJsonInfo) : List PackageJsonInfo :=
  results.foldr insertByScore []

/-- The cache-miss computation of `discoverPackageJsonFiles`
(lines 83-94): upward pass, downward pass over the shared state, then
scoring and the descending sort. -/
def freshResults (fs : Fs) (workspaceRoots : List FsPath) (startPath : FsPath)
    (opts : ResolvedOptions) : List PackageJsonInfo :=
  let afterUp := searchUpward fs workspaceRoots opts.maxDepthUp (startPath.length + 1)
    startPath 0 ⟨[], []⟩
  let afterDown := searchDownward fs workspaceRoots opts (opts.maxDepthDown + 1)
    opts.maxDepthDown startPath 0 afterUp
  sortByScoreDesc (calculateScores afterDown.results startPath)

/-- Source method `discoverPackageJsonFiles` (lines 71-102). -/
def discoverPackageJsonFiles (fs : Fs) (st : ServiceState) (startPath : FsPath)
    (options : DiscoveryOptions) : List PackageJsonInfo × ServiceState :=
  let opts := resolveOptions options
  let cacheKey : CacheKey := (startPath, opts)
  match (if opts.cacheResults then cacheLookup st.cache cacheKey else none) with
  | some cached => (cached, st)
  | none =>
    let results := freshResults fs st.workspaceRoots startPath opts
    if opts.cacheResults then
      (results, { st with cache := cacheInsert st.cache cacheKey results })
    else
      (results, st)

/-- Source method `clearCache` (lines 64-66). -/
def clearCache (st : ServiceState) : ServiceState := { st with cache := [] }

/-- Source method `refreshWorkspaceRoots` (lines 424-427): re-read the known roots
from the editor (here: the supplied list) and clear the cache. -/
def refreshWorkspaceRoots (st : ServiceState) (newRoots : List FsPath) : ServiceState :=
  { cache := [], workspaceRoots := newRoots }

/-- Source method `getBestPackageJson` (lines 300-324).  When the supplementary probe
branch runs, `results.push(...childResults)`, the in-place rescoring
and the in-place sort all act on the array object that
`discoverPackageJsonFiles` cached, so the cache entry under that key
holds the merged, re-scored, re-sorted list afterwards. -/
def getBestPackageJson (fs : Fs) (st : ServiceState) (startPath : FsPath)
    (options : DiscoveryOptions) : Option PackageJsonInfo × ServiceState :=
  let opts := resolveOptions options
  let d := discoverPackageJsonFiles fs st startPath opts.toOptions
  let hasPackageJsonAtStartPath := d.1.any (fun info => decide (info.directory = startPath))
  if !hasPackageJsonAtStartPath && 0 < opts.maxDepthDown then
    let probeOptions : DiscoveryOptions :=
      { opts.toOptions with
        maxDepthUp := some 0
        maxDepthDown := some (min opts.maxDepthDown 2)
        cacheResults := some false }
    let dc := discoverPackageJsonFiles fs d.2 startPath probeOptions
    let merged := sortByScoreDesc (calculateScores (d.1 ++ dc.1) startPath)
    let st3 :=
      if opts.cacheResults then
        { dc.2 with cache := cacheInsert dc.2.cache (startPath, opts) merged }
      else dc.2
    (merged.head?, st3)
  else
    (d.1.head?, d.2)

/-- The `filter`/`findIndex` de-duplication by `path` of
`getWorkspacePackageJsonFiles` (lines 341-343). -/
def uniqueByPath (arr : List PackageJsonInfo) : List PackageJsonInfo :=
  (arr.enum.filter (fun p =>
    arr.findIdx (fun other => decide (other.path = p.2.path)) == p.1)).map (·.2)

/-- Source method `getWorkspacePackageJsonFiles` (lines 329-346). -/
def getWorkspacePackageJsonFiles (fs : Fs) (st : ServiceState) :
    List PackageJsonInfo × ServiceState :=
  let folded := st.workspaceRoots.foldl
    (fun (acc : List PackageJsonInfo × ServiceState) workspaceRoot =>
      let step := discoverPackageJsonFiles fs acc.2 workspaceRoot
        { maxDepthUp := some 0, maxDepthDown := some 10 }
      (acc.1 ++ step.1, step.2))
    ([], st)
  (sortByScoreDesc (uniqueByPath folded.1), folded.2)

/-- Source method `getWorkspaceRoot` (lines 412-419): the first known root that is a
prefix of the path. -/
def getWorkspaceRoot (workspaceRoots : List FsPath) (filePath : FsPath) : Option FsPath :=
  workspaceRoots.find? (fun root => decide (root <+: filePath))

/-! ### Context Analyzer (`projectDetector.ts`, `SmartDetectionService`) -/

/-- The `ProjectContext.type` union. -/
inductive ProjectType where
  | monorepo
  | singlePackage
  | workspace
  | nested
deriving DecidableEq, Repr

/-- Interface `ProjectContext`. -/
structure ProjectContext where
  type : ProjectType
  rootPackageJson : Option PackageJsonInfo
  relevantPackageJsons : List PackageJsonInfo
  workspaceRoot : FsPath
  currentPath : FsPath
  recommendations : List String
deriving Repr

/-- Interface `SmartDetectionOptions` (all fields optional). -/
structure SmartDetectionOptions where
  includeParentProjects : Option Bool := none
  prioritizeWorkspaceRoots : Option Bool := none
  detectMonorepos : Option Bool := none
  analyzeProjectStructure : Option Bool := none
deriving Repr

/-- The resolved smart-detection options (every default is `true`,
lines 170-176). -/
structure ResolvedSmartOptions where
  includeParentProjects : Bool
  prioritizeWorkspaceRoots : Bool
  detectMonorepos : Bool
  analyzeProjectStructure : Bool
deriving Repr

/-- The spread `{ includeParentProjects: true, ..., ...options }`. -/
def resolveSmartOptions (o : SmartDetectionOptions) : ResolvedSmartOptions :=
  { includeParentProjects := o.includeParentProjects.getD true
    prioritizeWorkspaceRoots := o.prioritizeWorkspaceRoots.getD true
    detectMonorepos := o.detectMonorepos.getD true
    analyzeProjectStructure := o.analyzeProjectStructure.getD true }

/-- The pattern catalog built by the service constructor
(lines 146-161). -/
def projectStructurePatterns : List (String × List String) :=
  [("react", ["src", "public", "package.json", "node_modules"]),
   ("vue", ["src", "public", "package.json", "vue.config.js"]),
   ("angular", ["src", "angular.json", "package.json", "node_modules"]),
   ("next", ["pages", "package.json", "next.config.js"]),
   ("nuxt", ["pages", "package.json", "nuxt.config.js"]),
   ("express", ["package.json", "server.js", "app.js"]),
   ("nest", ["src", "package.json", "nest-cli.json"]),
   ("lerna", ["lerna.json", "package.json", "packages"]),
   ("nx", ["nx.json", "package.json", "apps", "libs"]),
   ("rush", ["rush.json", "package.json", "apps"]),
   ("yarn-workspace", ["package.json", "yarn.lock", "packages"]),
   ("npm-workspace", ["package.json", "package-lock.json", "packages"])]

/-- Source method `analyzeProjectStructure` (lines 380-403): a pattern is detected
when at least `Math.ceil(files.length * 0.6)` of its marker files
exist (`(6 * n + 9) / 10` is that ceiling for the catalog lengths,
on which the floating-point product is benign). -/
def analyzeProjectStructure (fs : Fs) (currentPath : FsPath) : List String :=
  projectStructurePatterns.foldl
    (fun detectedPatterns p =>
      let matchCount := (p.2.filter (fun file => fs.access (currentPath ++ [file]))).length
      if (6 * p.2.length + 9) / 10 ≤ matchCount then detectedPatterns ++ [p.1]
      else detectedPatterns)
    []

/-- Does any manifest of the list declare the given script name
(the `allScripts` set of `generateRecommendations`, lines 346-351)? -/
def anyHasScript (packageJsons : List PackageJsonInfo) (k : String) : Bool :=
  packageJsons.any (fun pkg => pkg.scripts.any (fun kv => kv.1 == k))

/-- Source method `generateRecommendations` (lines 308-375). -/
def generateRecommendations (fs : Fs) (packageJsons : List PackageJsonInfo)
    (currentPath : FsPath) (projectType : ProjectType) : List String :=
  if packageJsons.isEmpty then
    ["No package.json files found. Consider initializing a new npm project."]
  else
    let projectStructure := analyzeProjectStructure fs currentPath
    let typeRecs : List String :=
      match projectType with
      | .monorepo =>
        ["Monorepo detected. Consider using workspace-specific commands."]
        ++ (if 3 < packageJsons.length then
             ["Multiple packages found. Use package selection for targeted operations."]
           else [])
      | .workspace =>
        ["VS Code workspace detected. Commands will be scoped to workspace boundaries."]
      | .nested =>
        ["Nested package structure detected. Select the appropriate package.json for your task."]
      | .singlePackage =>
        ["Single package project detected."]
    typeRecs
    ++ (if anyHasScript packageJsons "dev" || anyHasScript packageJsons "start" then
         ["Development scripts available. Use \"dev\" or \"start\" to run the project."]
       else [])
    ++ (if anyHasScript packageJsons "build" then
         ["Build script available. Use \"build\" for production builds."]
       else [])
    ++ (if anyHasScript packageJsons "test" then
         ["Test script available. Use \"test\" to run tests."]
       else [])
    ++ (if projectStructure.contains "react" then
         ["React project detected. Common commands: start, build, test."]
       else [])
    ++ (if projectStructure.contains "next" then
         ["Next.js project detected. Common commands: dev, build, start."]
       else [])

/-- The in-place `pkg.score += 100` of `filterRelevantPackageJsons`
(lines 222-228), applied to each workspace-root entry. -/
def bumpWorkspaceScore (pkg : PackageJsonInfo) : PackageJsonInfo :=
  if pkg.isWorkspaceRoot then { pkg with score := pkg.score + 100 } else pkg

/-- The retention predicate of `filterRelevantPackageJsons`
(lines 231-245). -/
def keepRelevant (pkg : PackageJsonInfo) : Bool :=
  pkg.isWorkspaceRoot || decide (pkg.distance ≤ 3) || pkg.isMonorepoRoot
    || decide (5 ≤ pkg.scripts.length)

/-- Source method `filterRelevantPackageJsons` (lines 214-251).  First component:
the returned sorted relevant subset.  Second component: the state of
the `allPackageJsons` array objects after the in-place `+100`
workspace-root bump (the same objects the discovery cache holds). -/
def filterRelevantPackageJsons (allPackageJsons : List PackageJsonInfo)
    (options : ResolvedSmartOptions) : List PackageJsonInfo × List PackageJsonInfo :=
  let bumped :=
    if options.prioritizeWorkspaceRoots then allPackageJsons.map bumpWorkspaceScore
    else allPackageJsons
  let filtered := bumped.filter keepRelevant
  (sortByScoreDesc filtered, bumped)

/-- Source method `detectProjectType` (lines 256-277). -/
def detectProjectType (packageJsons : List PackageJsonInfo)
    (workspaceRoot : FsPath) : ProjectType :=
  if packageJsons.any (·.isMonorepoRoot) then .monorepo
  else if 1 < packageJsons.length then
    if packageJsons.any (·.isWorkspaceRoot) then .workspace else .nested
  else .singlePackage

/-- Source method `findRootPackageJson` (lines 282-303). -/
def findRootPackageJson (packageJsons : List PackageJsonInfo)
    (workspaceRoot : FsPath) (projectType : ProjectType) : Option PackageJsonInfo :=
  if packageJsons.isEmpty then none
  else
    match (if projectType = .monorepo then packageJsons.find? (·.isMonorepoRoot) else none) with
    | some monorepoRoot => some monorepoRoot
    | none =>
      match (if projectType = .workspace then packageJsons.find? (·.isWorkspaceRoot) else none) with
      | some workspaceRootPkg => some workspaceRootPkg
      | none => packageJsons.head?

/-- The discovery options passed by `analyzeProjectContext`
(lines 179-182). -/
def analyzeDiscoveryOptions (includeParentProjects : Bool) : DiscoveryOptions :=
  { maxDepthUp := some (if includeParentProjects then 10 else 0)
    maxDepthDown := some 5 }

/-- Source method `analyzeProjectContext` (lines 166-209).  The discovery call
returns (a reference to) the array the discovery cache holds, so the
in-place workspace-root score bump of `filterRelevantPackageJsons` is
visible through the cache afterwards; the embedding updates the cache
entry under that discovery key accordingly. -/
def analyzeProjectContext (fs : Fs) (st : ServiceState) (currentPath : FsPath)
    (options : SmartDetectionOptions) : ProjectContext × ServiceState :=
  let opts := resolveSmartOptions options
  let dOptions := analyzeDiscoveryOptions opts.includeParentProjects
  let d := discoverPackageJsonFiles fs st currentPath dOptions
  let workspaceRoot := (getWorkspaceRoot d.2.workspaceRoots currentPath).getD currentPath
  let fr := filterRelevantPackageJsons d.1 opts
  let st2 :=
    if (resolveOptions dOptions).cacheResults then
      { d.2 with cache := cacheInsert d.2.cache (currentPath, resolveOptions dOptions) fr.2 }
    else d.2
  let projectType := detectProjectType fr.1 workspaceRoot
  let rootPackageJson := findRootPackageJson fr.1 workspaceRoot projectType
  let recommendations := generateRecommendations fs fr.1 currentPath projectType
  ({ type := projectType
     rootPackageJson := rootPackageJson
     relevantPackageJsons := fr.1
     workspaceRoot := workspaceRoot
     currentPath := currentPath
     recommendations := recommendations }, st2)

/-- The decision rule of `shouldUseSpecificPackageJson`
(lines 436-448): a single relevant manifest is returned outright;
with several, the top one is returned only when its score strictly
exceeds 1.5 times the second one. -/
def chooseSpecificPackageJson (relevant : List PackageJsonInfo) : Option PackageJsonInfo :=
  match relevant with
  | [only] => some only
  | first :: second :: _ =>
    if (second.score : ℚ) * (1.5 : ℚ) < (first.score : ℚ) then some first else none
  | [] => none

/-- Source method `shouldUseSpecificPackageJson` (lines 432-449). -/
def shouldUseSpecificPackageJson (fs : Fs) (st : ServiceState)
    (currentPath : FsPath) : Option PackageJsonInfo × ServiceState :=
  let ctx := analyzeProjectContext fs st currentPath {}
  (chooseSpecificPackageJson ctx.1.relevantPackageJsons, ctx.2)

/-! ### Derived notions used by the statements -/

/-- Iterated `path.dirname`: the ancestor `k` hops above a path. -/
def upDir : Nat → FsPath → FsPath
  | 0, p => p
  | k + 1, p => upDir k (dirname p)

/-- The entries (zero or one) that one directory visit contributes:
`visitDirectory` appends exactly this list. -/
def visitNew (fs : Fs) (workspaceRoots : List FsPath) (currentPath : FsPath)
    (depth : Nat) : List PackageJsonInfo :=
  if fileExists fs (currentPath ++ [manifestFileName]) then
    match parsePackageJson fs workspaceRoots (currentPath ++ [manifestFileName]) depth with
    | some info => [info]
    | none => []
  else []

/-- An entry originates from a successful read-and-parse of its own
path against the current filesystem: all of its fields except the
(mutable) score are exactly those `parsePackageJson` builds. -/
def parseOriginAt (fs : Fs) (workspaceRoots : List FsPath)
    (e : PackageJsonInfo) : Prop :=
  ∃ content pkg,
    fs.read e.path = some content
    ∧ fs.decode content = some pkg
    ∧ { e with score := 0 } = mkPackageJsonInfo workspaceRoots e.path e.distance pkg

/-- Shape invariant of one entry of a discovery result for start path
`sp`. -/
def EntryWF (fs : Fs) (workspaceRoots : List FsPath) (sp : FsPath)
    (e : PackageJsonInfo) : Prop :=
  parseOriginAt fs workspaceRoots e
  ∧ e.path = e.directory ++ [manifestFileName]
  ∧ e.directory <+: sp
  ∧ (e.directory = sp → e.distance = 0)
  ∧ 0 ≤ e.score

/-- Shape invariant of a whole discovery result list. -/
def EntriesWF (fs : Fs) (workspaceRoots : List FsPath) (sp : FsPath)
    (l : List PackageJsonInfo) : Prop :=
  (l.map (·.path)).Nodup ∧ ∀ e ∈ l, EntryWF fs workspaceRoots sp e

/-- Every cached list satisfies the shape invariant for the start path
of its key (the state reached by any sequence of engine operations on
an initially empty cache against an unchanged filesystem). -/
def CacheWF (fs : Fs) (st : ServiceState) : Prop :=
  ∀ k l, cacheLookup st.cache k = some l → EntriesWF fs st.workspaceRoots k.1 l

/-- Scoring formula exactly as the specification words it: the +15
bonus fires when the scripts mapping merely contains one of the common
names as a key, and the +40 bonus condition is phrased as no entry of
the result set lying exactly at the start path. -/
def specClaimedScore (entryAtStartPath : Bool) (startPath : FsPath)
    (info : PackageJsonInfo) : ℤ :=
  max 0 (100 - (info.distance : ℤ) * 10)
  + (if info.isWorkspaceRoot then 50 else 0)
  + (if info.isMonorepoRoot then 30 else 0)
  + (if 0 < info.scripts.length then 20 else 0)
  + (if commonScripts.any (fun s => info.scripts.any (fun kv => kv.1 == s)) then 15 else 0)
  + (if info.directory = startPath then 25 else 0)
  + (if !entryAtStartPath && info.distance == 1 then 40 else 0)

/-- The specification formula amended by what the code actually does
at the +15 bonus: a common script name must be bound to a NON-EMPTY
command string.  (The membership flag keeps the claim wording: some
entry of the result set lies exactly at the start path.) -/
def specAmendedScore (entryAtStartPath : Bool) (startPath : FsPath)
    (info : PackageJsonInfo) : ℤ :=
  max 0 (100 - (info.distance : ℤ) * 10)
  + (if info.isWorkspaceRoot then 50 else 0)
  + (if info.isMonorepoRoot then 30 else 0)
  + (if 0 < info.scripts.length then 20 else 0)
  + (if commonScripts.any (fun s => ((List.lookup s info.scripts).getD "") != "") then 15 else 0)
  + (if info.directory = startPath then 25 else 0)
  + (if !entryAtStartPath && info.distance == 1 then 40 else 0)

/-! ### Concrete fixtures for witnesses and counterexamples -/

/-- Manifest content with `build` and `test` scripts. -/
def pkgScriptsBT : PkgJson := ⟨none, none, some [("build", "tsc"), ("test", "jest")], none⟩

/-- Manifest content with no declared fields. -/
def pkgPlain : PkgJson := ⟨none, none, none, none⟩

/-- Manifest content whose only script is `build` bound to the empty
command string. -/
def pkgBuildEmpty : PkgJson := ⟨none, none, some [("build", "")], none⟩

/-- The C1 scenario filesystem: a manifest with `build` and `test`
scripts at `/repo/package.json` and a script-less manifest at
`/repo/pkgs/a/package.json`. -/
def fsRepo : Fs where
  access p := decide (p = ["repo", "package.json"])
    || decide (p = ["repo", "pkgs", "a", "package.json"])
  read p :=
    if p = ["repo", "package.json"] then some "BT"
    else if p = ["repo", "pkgs", "a", "package.json"] then some "PLAIN"
    else none
  decode s :=
    if s = "BT" then some pkgScriptsBT
    else if s = "PLAIN" then some pkgPlain
    else none
  readdir p :=
    if p = ["repo"] then some [⟨"pkgs", true⟩]
    else if p = ["repo", "pkgs"] then some [⟨"a", true⟩]
    else if p = ["repo", "pkgs", "a"] then some []
    else none

/-- A filesystem with a single plain manifest at the workspace root
`/w`. -/
def fsWs : Fs where
  access p := decide (p = ["w", "package.json"])
  read p := if p = ["w", "package.json"] then some "PLAIN" else none
  decode s := if s = "PLAIN" then some pkgPlain else none
  readdir _ := none

/-- Service state with an empty cache and `/w` as the only known
workspace root. -/
def stWs : ServiceState := ⟨[], [["w"]]⟩

/-- A filesystem with a manifest at `/r` whose only script is `build`
bound to the empty string. -/
def fsBuildEmpty : Fs where
  access p := decide (p = ["r", "package.json"])
  read p := if p = ["r", "package.json"] then some "EMPTYBUILD" else none
  decode s := if s = "EMPTYBUILD" then some pkgBuildEmpty else none
  readdir _ := none

/-- A filesystem exercising the failure taxonomy on the ancestor chain
of `/a/b`: a well-formed manifest at `/a/b`, malformed manifest
content at `/a` (read succeeds, decoding fails), and a manifest at the
root whose read fails outright. -/
def fsBad : Fs where
  access p := decide (p = ["a", "b", "package.json"])
    || decide (p = ["a", "package.json"]) || decide (p = ["package.json"])
  read p :=
    if p = ["a", "b", "package.json"] then some "PLAIN"
    else if p = ["a", "package.json"] then some "MALFORMED"
    else none
  decode s := if s = "PLAIN" then some pkgPlain else none
  readdir _ := none

/-- A manifest entry with the given score (fields otherwise fixed);
used to exercise the decision rule of `shouldUseSpecificPackageJson`
on prescribed score pairs. -/
def infoWithScore (score : ℤ) : PackageJsonInfo :=
  { path := ["x", "package.json"]
    directory := ["x"]
    name := none
    version := none
    scripts := []
    isWorkspaceRoot := false
    isMonorepoRoot := false
    workspaces := none
    distance := 0
    score := score }

/-! ### Helper lemmas -/

theorem upDir_prefix (k : Nat) (p : FsPath) : upDir k p <+: p := by
  induction k generalizing p with
  | zero => exact List.prefix_rfl
  | succ k ih => exact (ih (dirname p)).trans (List.dropLast_prefix p)

theorem upDir_length (k : Nat) (p : FsPath) (hk : k ≤ p.length) :
    (upDir k p).length = p.length - k := by
  induction k generalizing p with
  | zero => simp [upDir]
  | succ k ih =>
    have hp : p ≠ [] := by
      intro h
      subst h
      simp at hk
    have hlen : (dirname p).length = p.length - 1 := by
      simp [dirname, List.length_dropLast]
    have hk2 : k ≤ (dirname p).length := by omega
    show (upDir k (dirname p)).length = p.length - (k + 1)
    rw [ih (dirname p) hk2, hlen]
    omega

theorem cacheLookup_insert_self (c : Cache) (k : CacheKey) (v : List PackageJsonInfo) :
    cacheLookup (cacheInsert c k v) k = some v := by
  simp [cacheLookup, cacheInsert]

theorem cacheLookup_insert_ne (c : Cache) (k k' : CacheKey) (v : List PackageJsonInfo)
    (h : k' ≠ k) : cacheLookup (cacheInsert c k v) k' = cacheLookup c k' := by
  unfold cacheLookup cacheInsert
  rw [List.find?_cons_of_neg _ (by simp [Ne.symm h])]

theorem insertByScore_perm (e : PackageJsonInfo) (l : List PackageJsonInfo) :
    List.Perm (insertByScore e l) (e :: l) := by
  induction l with
  | nil => exact List.Perm.refl _
  | cons x xs ih =>
    unfold insertByScore
    split
    · exact List.Perm.refl _
    · exact (ih.cons x).trans (List.Perm.swap e x xs)

theorem sortByScoreDesc_perm (l : List PackageJsonInfo) :
    List.Perm (sortByScoreDesc l) l := by
  induction l with
  | nil => exact List.Perm.refl _
  | cons x xs ih =>
    show List.Perm (insertByScore x (sortByScoreDesc xs)) (x :: xs)
    exact (insertByScore_perm x (sortByScoreDesc xs)).trans (ih.cons x)

theorem mem_sortByScoreDesc (l : List PackageJsonInfo) (e : PackageJsonInfo) :
    e ∈ sortByScoreDesc l ↔ e ∈ l := (sortByScoreDesc_perm l).mem_iff

theorem computeScore_nonneg (h : Bool) (sp : FsPath) (info : PackageJsonInfo) :
    0 ≤ computeScore h sp info := by
  unfold computeScore
  refine add_nonneg (add_nonneg (add_nonneg (add_nonneg (add_nonneg
    (add_nonneg ?_ ?_) ?_) ?_) ?_) ?_) ?_
  · exact le_max_left _ _
  all_goals split <;> norm_num

theorem parsePackageJson_origin (fs : Fs) (roots : List FsPath) (p : FsPath) (d : Nat)
    (info : PackageJsonInfo) (h : parsePackageJson fs roots p d = some info) :
    ∃ content pkg, fs.read p = some content ∧ fs.decode content = some pkg
      ∧ info = mkPackageJsonInfo roots p d pkg := by
  unfold parsePackageJson at h
  cases hr : fs.read p with
  | none => rw [hr] at h; simp at h
  | some content =>
    rw [hr] at h
    cases hd : fs.decode content with
    | none => simp [hd] at h
    | some pkg =>
      simp only [hd, Option.some.injEq] at h
      exact ⟨content, pkg, rfl, hd, h.symm⟩

theorem visitDirectory_eq (fs : Fs) (roots : List FsPath) (cp : FsPath) (depth : Nat)
    (results : List PackageJsonInfo) :
    visitDirectory fs roots cp depth results
      = results ++ visitNew fs roots cp depth := by
  unfold visitDirectory visitNew
  by_cases h : fileExists fs (cp ++ [manifestFileName]) = true
  · simp only [if_pos h]
    cases parsePackageJson fs roots (cp ++ [manifestFileName]) depth <;> simp
  · simp [h]

theorem visitNew_spec (fs : Fs) (roots : List FsPath) (cp : FsPath) (depth : Nat) :
    ∀ e ∈ visitNew fs roots cp depth,
      parseOriginAt fs roots e ∧ e.directory = cp
        ∧ e.path = cp ++ [manifestFileName] ∧ e.distance = depth := by
  intro e he
  unfold visitNew at he
  split at he
  case isTrue hex =>
    cases hp : parsePackageJson fs roots (cp ++ [manifestFileName]) depth with
    | none => rw [hp] at he; simp at he
    | some info =>
      rw [hp] at he
      simp only [List.mem_singleton] at he
      subst he
      obtain ⟨content, pkg, hr, hd, hmk⟩ := parsePackageJson_origin _ _ _ _ _ hp
      subst hmk
      refine ⟨⟨content, pkg, hr, hd, rfl⟩, ?_, rfl, rfl⟩
      simp [mkPackageJsonInfo, dirname, List.dropLast_concat]
  case isFalse => simp at he

theorem visitNew_length (fs : Fs) (roots : List FsPath) (cp : FsPath) (depth : Nat) :
    (visitNew fs roots cp depth).length ≤ 1 := by
  unfold visitNew
  by_cases h : fileExists fs (cp ++ [manifestFileName]) = true
  · simp only [if_pos h]
    cases parsePackageJson fs roots (cp ++ [manifestFileName]) depth <;> simp
  · simp [h]

theorem searchDownward_visited (fs : Fs) (roots : List FsPath) (opts : ResolvedOptions)
    (fuel maxDepth : Nat) (cp : FsPath) (depth : Nat) (st : SearchState)
    (h : cp ∈ st.visited) :
    searchDownward fs roots opts fuel maxDepth cp depth st = st := by
  unfold searchDownward
  simp [h]

theorem searchUpward_guard (fs : Fs) (roots : List FsPath) (maxDepth fuel : Nat)
    (cp : FsPath) (depth : Nat) (st : SearchState)
    (h : maxDepth < depth ∨ cp ∈ st.visited) :
    searchUpward fs roots maxDepth fuel cp depth st = st := by
  unfold searchUpward
  simp [h]

theorem searchUpward_root (fs : Fs) (roots : List FsPath) (maxDepth fuel : Nat)
    (cp : FsPath) (depth : Nat) (st : SearchState)
    (hg : ¬(maxDepth < depth ∨ cp ∈ st.visited)) (hpar : dirname cp = cp) :
    searchUpward fs roots maxDepth (fuel + 1) cp depth st
      = ⟨visitDirectory fs roots cp depth st.results, cp :: st.visited⟩ := by
  unfold searchUpward
  simp [hg, hpar]

theorem searchUpward_step (fs : Fs) (roots : List FsPath) (maxDepth fuel : Nat)
    (cp : FsPath) (depth : Nat) (st : SearchState)
    (hg : ¬(maxDepth < depth ∨ cp ∈ st.visited)) (hpar : ¬ dirname cp = cp) :
    searchUpward fs roots maxDepth (fuel + 1) cp depth st
      = searchUpward fs roots maxDepth fuel (dirname cp) (depth + 1)
          ⟨visitDirectory fs roots cp depth st.results, cp :: st.visited⟩ := by
  conv_lhs => rw [searchUpward]
  simp [hg, hpar]

theorem pairwise_of_length_le_one {α : Type} {R : α → α → Prop} {l : List α}
    (h : l.length ≤ 1) : l.Pairwise R := by
  match l with
  | [] => exact List.Pairwise.nil
  | [_] => simp
  | _ :: _ :: _ => simp at h

theorem searchUpward_spec (fs : Fs) (roots : List FsPath) (maxDepth : Nat) :
    ∀ (cp : FsPath) (fuel depth : Nat) (st : SearchState), cp.length < fuel →
      ∃ new : List PackageJsonInfo,
        (searchUpward fs roots maxDepth fuel cp depth st).results = st.results ++ new
        ∧ (∀ p ∈ st.visited, p ∈ (searchUpward fs roots maxDepth fuel cp depth st).visited)
        ∧ (¬ maxDepth < depth → cp ∈ (searchUpward fs roots maxDepth fuel cp depth st).visited)
        ∧ (∀ e ∈ new, parseOriginAt fs roots e
            ∧ e.path = e.directory ++ [manifestFileName]
            ∧ ∃ k, k ≤ cp.length ∧ e.distance = depth + k ∧ e.directory = upDir k cp)
        ∧ new.Pairwise (fun x y => x.distance < y.distance) := by
  intro cp
  induction cp using List.reverseRecOn with
  | nil =>
    intro fuel depth st hfuel
    obtain ⟨fuel', rfl⟩ : ∃ fuel', fuel = fuel' + 1 := ⟨fuel - 1, by omega⟩
    by_cases hg : maxDepth < depth ∨ ([] : FsPath) ∈ st.visited
    · rw [searchUpward_guard fs roots maxDepth (fuel' + 1) [] depth st hg]
      exact ⟨[], by simp, fun p hp => hp, fun hnd => hg.resolve_left hnd,
        by simp, List.Pairwise.nil⟩
    · rw [searchUpward_root fs roots maxDepth fuel' [] depth st hg rfl]
      refine ⟨visitNew fs roots [] depth, ?_, ?_, ?_, ?_, ?_⟩
      · exact visitDirectory_eq fs roots [] depth st.results
      · intro p hp
        exact List.mem_cons_of_mem _ hp
      · intro _
        exact List.mem_cons_self _ _
      · intro e he
        obtain ⟨ho, hdir, hpath, hdist⟩ := visitNew_spec fs roots [] depth e he
        refine ⟨ho, by rw [hpath, hdir], 0, by simp, by simpa using hdist, ?_⟩
        simpa [upDir] using hdir
      · exact pairwise_of_length_le_one (visitNew_length fs roots [] depth)
  | append_singleton l a ih =>
    intro fuel depth st hfuel
    obtain ⟨fuel', rfl⟩ : ∃ fuel', fuel = fuel' + 1 := ⟨fuel - 1, by omega⟩
    by_cases hg : maxDepth < depth ∨ (l ++ [a]) ∈ st.visited
    · rw [searchUpward_guard fs roots maxDepth (fuel' + 1) (l ++ [a]) depth st hg]
      exact ⟨[], by simp, fun p hp => hp, fun hnd => hg.resolve_left hnd,
        by simp, List.Pairwise.nil⟩
    · have hpar : dirname (l ++ [a]) = l := by
        simp [dirname, List.dropLast_concat]
      have hne : ¬ dirname (l ++ [a]) = l ++ [a] := by
        rw [hpar]
        intro hcontra
        have := congrArg List.length hcontra
        simp at this
      have hfuel' : l.length < fuel' := by
        have := hfuel
        simp only [List.length_append, List.length_singleton] at this
        omega
      rw [searchUpward_step fs roots maxDepth fuel' (l ++ [a]) depth st hg hne, hpar]
      obtain ⟨new2, h1, h2, h3, h4, h5⟩ := ih fuel' (depth + 1)
        ⟨visitDirectory fs roots (l ++ [a]) depth st.results, (l ++ [a]) :: st.visited⟩ hfuel'
      refine ⟨visitNew fs roots (l ++ [a]) depth ++ new2, ?_, ?_, ?_, ?_, ?_⟩
      · rw [h1]
        show visitDirectory fs roots (l ++ [a]) depth st.results ++ new2 = _
        rw [visitDirectory_eq, List.append_assoc]
      · intro p hp
        exact h2 p (List.mem_cons_of_mem _ hp)
      · intro _
        exact h2 _ (List.mem_cons_self _ _)
      · intro e he
        rcases List.mem_append.mp he with hv | h2m
        · obtain ⟨ho, hdir, hpath, hdist⟩ := visitNew_spec fs roots (l ++ [a]) depth e hv
          refine ⟨ho, by rw [hpath, hdir], 0, by simp, by simpa using hdist, ?_⟩
          simpa [upDir] using hdir
        · obtain ⟨ho, hpath, k2, hk2, hdist, hdir⟩ := h4 e h2m
          refine ⟨ho, hpath, k2 + 1, ?_, by omega, ?_⟩
          · simp only [List.length_append, List.length_singleton]
            omega
          · show e.directory = upDir k2 (dirname (l ++ [a]))
            rw [hpar]
            exact hdir
      · rw [List.pairwise_append]
        refine ⟨pairwise_of_length_le_one (visitNew_length fs roots (l ++ [a]) depth), h5, ?_⟩
        intro x hx y hy
        obtain ⟨_, _, _, hdx⟩ := visitNew_spec fs roots (l ++ [a]) depth x hx
        obtain ⟨_, _, k2, _, hdy, _⟩ := h4 y hy
        omega

theorem searchUpward_start_visited (fs : Fs) (roots : List FsPath) (maxDepth : Nat)
    (sp : FsPath) :
    sp ∈ (searchUpward fs roots maxDepth (sp.length + 1) sp 0 ⟨[], []⟩).visited := by
  obtain ⟨new, _, _, h3, _, _⟩ :=
    searchUpward_spec fs roots maxDepth sp (sp.length + 1) 0 ⟨[], []⟩ (by omega)
  exact h3 (by omega)

theorem freshResults_eq (fs : Fs) (roots : List FsPath) (sp : FsPath)
    (opts : ResolvedOptions) :
    freshResults fs roots sp opts
      = sortByScoreDesc (calculateScores
          (searchUpward fs roots opts.maxDepthUp (sp.length + 1) sp 0 ⟨[], []⟩).results sp) := by
  show sortByScoreDesc (calculateScores
    (searchDownward fs roots opts (opts.maxDepthDown + 1) opts.maxDepthDown sp 0
      (searchUpward fs roots opts.maxDepthUp (sp.length + 1) sp 0 ⟨[], []⟩)).results sp) = _
  rw [searchDownward_visited fs roots opts (opts.maxDepthDown + 1) opts.maxDepthDown sp 0
    (searchUpward fs roots opts.maxDepthUp (sp.length + 1) sp 0 ⟨[], []⟩)
    (searchUpward_start_visited fs roots opts.maxDepthUp sp)]

theorem mem_calculateScores (l : List PackageJsonInfo) (sp : FsPath)
    (e : PackageJsonInfo) :
    e ∈ calculateScores l sp ↔ ∃ e0 ∈ l,
      { e0 with score := computeScore (l.any (fun i => decide (i.directory = sp) && i.distance == 0)) sp e0 } = e :=
  List.mem_map

theorem calculateScores_map_path (l : List PackageJsonInfo) (sp : FsPath) :
    (calculateScores l sp).map (·.path) = l.map (·.path) := by
  simp only [calculateScores, List.map_map]
  rfl

theorem freshResults_WF (fs : Fs) (roots : List FsPath) (sp : FsPath)
    (opts : ResolvedOptions) :
    EntriesWF fs roots sp (freshResults fs roots sp opts) := by
  obtain ⟨new, h1, _, _, h4, h5⟩ :=
    searchUpward_spec fs roots opts.maxDepthUp sp (sp.length + 1) 0 ⟨[], []⟩ (by omega)
  have hup : (searchUpward fs roots opts.maxDepthUp (sp.length + 1) sp 0 ⟨[], []⟩).results
      = new := by
    simpa using h1
  rw [freshResults_eq, hup]
  constructor
  · have hperm := ((sortByScoreDesc_perm (calculateScores new sp)).map (·.path)).nodup_iff
    rw [hperm, calculateScores_map_path]
    refine List.pairwise_map.mpr (h5.imp_of_mem ?_)
    intro x y hx hy hlt
    obtain ⟨_, hpx, kx, hkx, hdx, hdirx⟩ := h4 x hx
    obtain ⟨_, hpy, ky, hky, hdy, hdiry⟩ := h4 y hy
    have hlx : x.path.length = sp.length - kx + 1 := by
      rw [hpx, hdirx]
      simp [upDir_length kx sp hkx]
    have hly : y.path.length = sp.length - ky + 1 := by
      rw [hpy, hdiry]
      simp [upDir_length ky sp hky]
    intro heq
    have := congrArg List.length heq
    rw [hlx, hly] at this
    omega
  · intro e he
    rw [mem_sortByScoreDesc] at he
    obtain ⟨e0, he0, heq⟩ := (mem_calculateScores new sp e).mp he
    subst heq
    obtain ⟨ho, hpath, k, hk, hdist, hdir⟩ := h4 e0 he0
    refine ⟨ho, hpath, ?_, ?_, computeScore_nonneg _ _ _⟩
    · show e0.directory <+: sp
      rw [hdir]
      exact upDir_prefix k sp
    · intro hds
      have hds' : upDir k sp = sp := by
        rw [← hdir]
        exact hds
      have hlen := upDir_length k sp hk
      rw [hds'] at hlen
      show e0.distance = 0
      omega

theorem discover_hit (fs : Fs) (st : ServiceState) (sp : FsPath) (o : DiscoveryOptions)
    (l : List PackageJsonInfo) (hc : (resolveOptions o).cacheResults = true)
    (hl : cacheLookup st.cache (sp, resolveOptions o) = some l) :
    discoverPackageJsonFiles fs st sp o = (l, st) := by
  unfold discoverPackageJsonFiles
  simp [hc, hl]

theorem discover_miss (fs : Fs) (st : ServiceState) (sp : FsPath) (o : DiscoveryOptions)
    (hm : (if (resolveOptions o).cacheResults then
        cacheLookup st.cache (sp, resolveOptions o) else none) = none) :
    discoverPackageJsonFiles fs st sp o
      = (freshResults fs st.workspaceRoots sp (resolveOptions o),
         if (resolveOptions o).cacheResults = true then
           { st with cache := cacheInsert st.cache (sp, resolveOptions o) (freshResults fs st.workspaceRoots sp (resolveOptions o)) }
         else st) := by
  unfold discoverPackageJsonFiles
  simp only [hm]
  by_cases hcr : (resolveOptions o).cacheResults = true <;> simp [hcr]

theorem uniqueByPath_nodup (l : List PackageJsonInfo) :
    ((uniqueByPath l).map (·.path)).Nodup := by
  unfold uniqueByPath
  rw [List.map_map]
  refine List.pairwise_map.mpr ?_
  have hfst : (l.enum).Pairwise (fun p q => p.1 ≠ q.1) :=
    List.pairwise_map.mp (List.nodup_enum_map_fst l)
  refine (hfst.filter _).imp_of_mem ?_
  intro p q hp hq hne
  have hp2 : l.findIdx (fun other => decide (other.path = p.2.path)) = p.1 := by
    simpa using (List.mem_filter.mp hp).2
  have hq2 : l.findIdx (fun other => decide (other.path = q.2.path)) = q.1 := by
    simpa using (List.mem_filter.mp hq).2
  intro hpath
  simp only [Function.comp_apply] at hpath
  apply hne
  rw [← hp2, ← hq2, hpath]

theorem chooseSpecific_eq_some_iff : ∀ (l : List PackageJsonInfo) (m : PackageJsonInfo),
    chooseSpecificPackageJson l = some m ↔
      (l = [m] ∨ ∃ second rest, l = m :: second :: rest
        ∧ (second.score : ℚ) * (1.5 : ℚ) < (m.score : ℚ))
  | [], m => by simp [chooseSpecificPackageJson]
  | [x], m => by simp [chooseSpecificPackageJson, eq_comm]
  | x :: y :: t, m => by
    simp only [chooseSpecificPackageJson]
    by_cases h : (y.score : ℚ) * (1.5 : ℚ) < (x.score : ℚ)
    · rw [if_pos h]
      constructor
      · intro hm
        injection hm with hm
        subst hm
        exact Or.inr ⟨y, t, rfl, h⟩
      · rintro (hE | ⟨s, r, hE, hlt⟩)
        · simp at hE
        · rw [List.cons.injEq, List.cons.injEq] at hE
          obtain ⟨rfl, rfl, rfl⟩ := hE
          rfl
    · rw [if_neg h]
      constructor
      · intro hm
        simp at hm
      · rintro (hE | ⟨s, r, hE, hlt⟩)
        · simp at hE
        · rw [List.cons.injEq, List.cons.injEq] at hE
          obtain ⟨rfl, rfl, rfl⟩ := hE
          exact absurd hlt h

theorem discoverPackageJsonFiles_WF (fs : Fs) (st : ServiceState) (sp : FsPath)
    (o : DiscoveryOptions) (hwf : CacheWF fs st) :
    EntriesWF fs st.workspaceRoots sp (discoverPackageJsonFiles fs st sp o).1 := by
  cases hm : (if (resolveOptions o).cacheResults then
      cacheLookup st.cache (sp, resolveOptions o) else none) with
  | some l =>
    have hc : (resolveOptions o).cacheResults = true := by
      by_contra hc'
      simp [hc'] at hm
    have hl : cacheLookup st.cache (sp, resolveOptions o) = some l := by
      simpa [hc] using hm
    rw [discover_hit fs st sp o l hc hl]
    exact hwf (sp, resolveOptions o) l hl
  | none =>
    rw [discover_miss fs st sp o hm]
    exact freshResults_WF fs st.workspaceRoots sp (resolveOptions o)

theorem discover_lookup_self (fs : Fs) (st : ServiceState) (sp : FsPath)
    (o : DiscoveryOptions) (hc : (resolveOptions o).cacheResults = true) :
    cacheLookup (discoverPackageJsonFiles fs st sp o).2.cache (sp, resolveOptions o)
      = some (discoverPackageJsonFiles fs st sp o).1 := by
  cases hm : (if (resolveOptions o).cacheResults then
      cacheLookup st.cache (sp, resolveOptions o) else none) with
  | some l =>
    have hl : cacheLookup st.cache (sp, resolveOptions o) = some l := by
      simpa [hc] using hm
    rw [discover_hit fs st sp o l hc hl]
    exact hl
  | none =>
    rw [discover_miss fs st sp o hm]
    simp [hc, cacheLookup_insert_self]

theorem bumpWorkspaceScore_path (e : PackageJsonInfo) :
    (bumpWorkspaceScore e).path = e.path := by
  unfold bumpWorkspaceScore
  split <;> rfl

theorem bumpWorkspaceScore_score (e : PackageJsonInfo) :
    (bumpWorkspaceScore e).score = e.score + (if e.isWorkspaceRoot then 100 else 0) := by
  unfold bumpWorkspaceScore
  by_cases h : e.isWorkspaceRoot <;> simp [h]

theorem analyzeProjectContext_state (fs : Fs) (st : ServiceState) (cp : FsPath) :
    (analyzeProjectContext fs st cp {}).2
      = { (discoverPackageJsonFiles fs st cp (analyzeDiscoveryOptions true)).2 with
          cache := cacheInsert (discoverPackageJsonFiles fs st cp (analyzeDiscoveryOptions true)).2.cache (cp, DEFAULT_OPTIONS) ((discoverPackageJsonFiles fs st cp (analyzeDiscoveryOptions true)).1.map bumpWorkspaceScore) } :=
  rfl

theorem emptyCacheWF (fs : Fs) (roots : List FsPath) :
    CacheWF fs ⟨[], roots⟩ := by
  intro k l h
  simp [cacheLookup] at h

theorem nodup_paths_sort (l : List PackageJsonInfo)
    (h : (l.map (·.path)).Nodup) :
    ((sortByScoreDesc l).map (·.path)).Nodup := by
  rw [((sortByScoreDesc_perm l).map (·.path)).nodup_iff]
  exact h

theorem searchUpward_dir_start (fs : Fs) (roots : List FsPath) (maxDepth : Nat)
    (sp : FsPath) :
    ∀ e ∈ (searchUpward fs roots maxDepth (sp.length + 1) sp 0 ⟨[], []⟩).results,
      e.directory = sp → e.distance = 0 := by
  obtain ⟨new, h1, _, _, h4, _⟩ :=
    searchUpward_spec fs roots maxDepth sp (sp.length + 1) 0 ⟨[], []⟩ (by omega)
  have hup : (searchUpward fs roots maxDepth (sp.length + 1) sp 0 ⟨[], []⟩).results = new := by
    simpa using h1
  rw [hup]
  intro e he hdir
  obtain ⟨_, _, k, hk, hdist, hdir2⟩ := h4 e he
  have hds' : upDir k sp = sp := by
    rw [← hdir2]
    exact hdir
  have hlen := upDir_length k sp hk
  rw [hds'] at hlen
  omega

theorem specAmendedScore_score_irrel (b : Bool) (sp : FsPath) (e : PackageJsonInfo)
    (q : ℤ) : specAmendedScore b sp { e with score := q } = specAmendedScore b sp e := rfl

/-! ### Claim theorems -/

/-- C1: evaluation of the code at the claimed scenario (manifests at
`/repo` with `build`+`test` scripts and at `/repo/pkgs/a` with none,
start path `/repo`, `maxDepthDown = 5`).  The code returns ONLY the
`/repo` entry with score 160: the downward pass finds the start path
already in the visited set filled by the upward pass and returns at
its entry guard, so `/repo/pkgs/a/package.json` is never discovered —
contradicting the claimed result of both entries with the child at
distance 2 and score 80. -/
theorem C1_code_eval :
    (discoverPackageJsonFiles fsRepo ⟨[], []⟩ ["repo"] { maxDepthDown := some 5 }).1.map
        (fun e => (e.path, e.score))
      = [(["repo", "package.json"], (160 : ℤ))] := by
  decide

/-- C2 counterexample: a discovery call returns an entry scored 175;
after one `analyzeProjectContext` call — with no cache invalidation
and no filesystem change — the same discovery call returns the entry
scored 275, so results already returned (and retained in the cache)
are mutated by a later call, contradicting the claimed immutability. -/
theorem C2_counterexample :
    (discoverPackageJsonFiles fsWs stWs ["w"] {}).1.map (·.score) = [(175 : ℤ)]
    ∧ (discoverPackageJsonFiles fsWs
        (analyzeProjectContext fsWs (discoverPackageJsonFiles fsWs stWs ["w"] {}).2 ["w"] {}).2
        ["w"] {}).1.map (·.score) = [(275 : ℤ)] := by
  decide

/-- C2 (amended): discovery results are not immutable.
`analyzeProjectContext` (with the default `prioritizeWorkspaceRoots`)
adds 100 in place to the score of every workspace-root entry of the
discovery result under its `(startPath, options)` key — the very array
the cache retains — so a later identical discovery call observes
exactly the bumped scores, with paths (and all fields other than
score, and all non-workspace-root entries) unchanged. -/
theorem C2_analyze_mutates_cached_scores (fs : Fs) (st : ServiceState) (cp : FsPath) :
    (discoverPackageJsonFiles fs
        (analyzeProjectContext fs (discoverPackageJsonFiles fs st cp {}).2 cp {}).2 cp {}).1
      = (discoverPackageJsonFiles fs st cp {}).1.map bumpWorkspaceScore
    ∧ (discoverPackageJsonFiles fs
        (analyzeProjectContext fs (discoverPackageJsonFiles fs st cp {}).2 cp {}).2 cp {}).1.map
        (·.path)
      = (discoverPackageJsonFiles fs st cp {}).1.map (·.path)
    ∧ (discoverPackageJsonFiles fs
        (analyzeProjectContext fs (discoverPackageJsonFiles fs st cp {}).2 cp {}).2 cp {}).1.map
        (·.score)
      = (discoverPackageJsonFiles fs st cp {}).1.map
          (fun e => e.score + (if e.isWorkspaceRoot then 100 else 0)) := by
  have hl : cacheLookup (discoverPackageJsonFiles fs st cp {}).2.cache (cp, DEFAULT_OPTIONS)
      = some (discoverPackageJsonFiles fs st cp {}).1 :=
    discover_lookup_self fs st cp {} rfl
  have h2 : discoverPackageJsonFiles fs (discoverPackageJsonFiles fs st cp {}).2 cp
        (analyzeDiscoveryOptions true)
      = ((discoverPackageJsonFiles fs st cp {}).1, (discoverPackageJsonFiles fs st cp {}).2) :=
    discover_hit fs (discoverPackageJsonFiles fs st cp {}).2 cp (analyzeDiscoveryOptions true)
      (discoverPackageJsonFiles fs st cp {}).1 rfl hl
  have hstate := analyzeProjectContext_state fs (discoverPackageJsonFiles fs st cp {}).2 cp
  rw [h2] at hstate
  have hl2 : cacheLookup
        (analyzeProjectContext fs (discoverPackageJsonFiles fs st cp {}).2 cp {}).2.cache
        (cp, DEFAULT_OPTIONS)
      = some ((discoverPackageJsonFiles fs st cp {}).1.map bumpWorkspaceScore) := by
    rw [hstate]
    exact cacheLookup_insert_self _ _ _
  have h3 := discover_hit fs
    (analyzeProjectContext fs (discoverPackageJsonFiles fs st cp {}).2 cp {}).2 cp {}
    ((discoverPackageJsonFiles fs st cp {}).1.map bumpWorkspaceScore) rfl hl2
  rw [h3]
  refine ⟨rfl, ?_, ?_⟩
  · rw [List.map_map]
    simp [Function.comp_def, bumpWorkspaceScore_path]
  · rw [List.map_map]
    simp [Function.comp_def, bumpWorkspaceScore_score]

/-- C4 counterexample: with a single manifest at the start path whose
only script is `build` bound to the empty command string, the code
computes score 145 (base 100, +20 non-empty scripts, +25 directory at
start path — NO +15, because the common-script test checks the bound
command for truthiness and the empty string is falsy), while the
claimed formula, whose +15 clause requires only that `scripts`
contains one of the common names, yields 160. -/
theorem C4_counterexample :
    (discoverPackageJsonFiles fsBuildEmpty ⟨[], []⟩ ["r"] {}).1.map (·.score) = [(145 : ℤ)]
    ∧ (discoverPackageJsonFiles fsBuildEmpty ⟨[], []⟩ ["r"] {}).1.map
        (specClaimedScore
          ((discoverPackageJsonFiles fsBuildEmpty ⟨[], []⟩ ["r"] {}).1.any
            (fun i => decide (i.directory = ["r"]))) ["r"])
      = [(160 : ℤ)] := by
  decide

/-- C4 (amended): every freshly computed result entry scores exactly
the additive formula — max(0, 100 − 10·distance), +50 workspace root,
+30 monorepo root, +20 non-empty scripts, +15 if one of
start/dev/build/test/lint is bound to a NON-EMPTY command string,
+25 directory equal to the start path, +40 if no entry of the result
set lies exactly at the start path and the distance is 1 — and the
same holds for any merged result set that `calculateScores` re-scores
(as in the supplementary probe of `getBestPackageJson`), so all
bonuses are additive and the whole set is re-scored on merge. -/
theorem C4_amended_scoring :
    (∀ (fs : Fs) (roots : List FsPath) (sp : FsPath) (opts : ResolvedOptions),
      ∀ e ∈ freshResults fs roots sp opts,
        e.score = specAmendedScore
          ((freshResults fs roots sp opts).any (fun i => decide (i.directory = sp))) sp e)
    ∧ (∀ (merged : List PackageJsonInfo) (sp : FsPath),
        (∀ e ∈ merged, e.directory = sp → e.distance = 0) →
        ∀ e ∈ calculateScores merged sp,
          e.score = specAmendedScore (merged.any (fun i => decide (i.directory = sp))) sp e) := by
  have hpart2 : ∀ (merged : List PackageJsonInfo) (sp : FsPath),
      (∀ e ∈ merged, e.directory = sp → e.distance = 0) →
      ∀ e ∈ calculateScores merged sp,
        e.score = specAmendedScore (merged.any (fun i => decide (i.directory = sp))) sp e := by
    intro merged sp hinv e he
    obtain ⟨e0, he0, heq⟩ := (mem_calculateScores merged sp e).mp he
    have hflag : merged.any (fun i => decide (i.directory = sp) && i.distance == 0)
        = merged.any (fun i => decide (i.directory = sp)) := by
      rw [Bool.eq_iff_iff]
      simp only [List.any_eq_true, Bool.and_eq_true, decide_eq_true_eq, beq_iff_eq]
      constructor
      · rintro ⟨i, hi, hdir, _⟩
        exact ⟨i, hi, hdir⟩
      · rintro ⟨i, hi, hdir⟩
        exact ⟨i, hi, hdir, hinv i hi hdir⟩
    subst heq
    rw [specAmendedScore_score_irrel, hflag]
    rfl
  refine ⟨?_, hpart2⟩
  intro fs roots sp opts e he
  rw [freshResults_eq, mem_sortByScoreDesc] at he
  have hsc := hpart2
    (searchUpward fs roots opts.maxDepthUp (sp.length + 1) sp 0 ⟨[], []⟩).results sp
    (searchUpward_dir_start fs roots opts.maxDepthUp sp) e he
  have hflag2 : (freshResults fs roots sp opts).any (fun i => decide (i.directory = sp))
      = (searchUpward fs roots opts.maxDepthUp (sp.length + 1) sp 0 ⟨[], []⟩).results.any
          (fun i => decide (i.directory = sp)) := by
    rw [freshResults_eq, Bool.eq_iff_iff]
    simp only [List.any_eq_true, decide_eq_true_eq]
    constructor
    · rintro ⟨i, hi, hd⟩
      rw [mem_sortByScoreDesc] at hi
      obtain ⟨i0, hi0, hieq⟩ := (mem_calculateScores _ _ _).mp hi
      subst hieq
      exact ⟨i0, hi0, hd⟩
    · rintro ⟨i, hi, hd⟩
      exact ⟨_, (mem_sortByScoreDesc _ _).mpr ((mem_calculateScores _ _ _).mpr ⟨i, hi, rfl⟩), hd⟩
  rw [hflag2]
  exact hsc

/-- Witness for the merged-set part of the amended C4 statement with
its invariant hypothesis discharged at a concrete input. -/
theorem C4_witness :
    (∀ e ∈ [infoWithScore 7], e.directory = (["x"] : FsPath) → e.distance = 0)
    ∧ (∀ e ∈ calculateScores [infoWithScore 7] ["x"],
        e.score = specAmendedScore
          (([infoWithScore 7]).any (fun i => decide (i.directory = ["x"]))) ["x"] e) :=
  ⟨by decide, C4_amended_scoring.2 [infoWithScore 7] ["x"] (by decide)⟩

/-- C8: no two entries of a discovery result share a path — within
one `discoverPackageJsonFiles` call (across the upward/downward
merge), and across the multi-root merge of
`getWorkspacePackageJsonFiles`. -/
theorem C8_no_duplicate_paths (fs : Fs) (st : ServiceState) (sp : FsPath)
    (o : DiscoveryOptions) (hwf : CacheWF fs st) :
    ((discoverPackageJsonFiles fs st sp o).1.map (·.path)).Nodup
    ∧ ((getWorkspacePackageJsonFiles fs st).1.map (·.path)).Nodup := by
  refine ⟨(discoverPackageJsonFiles_WF fs st sp o hwf).1, ?_⟩
  exact nodup_paths_sort _ (uniqueByPath_nodup _)

/-- Witness for C8 at a concrete filesystem and an empty cache. -/
theorem C8_witness :
    CacheWF fsWs stWs
    ∧ (((discoverPackageJsonFiles fsWs stWs ["w"] {}).1.map (·.path)).Nodup
      ∧ ((getWorkspacePackageJsonFiles fsWs stWs).1.map (·.path)).Nodup) :=
  ⟨emptyCacheWF fsWs [["w"]], C8_no_duplicate_paths fsWs stWs ["w"] {}
    (emptyCacheWF fsWs [["w"]])⟩

/-- C9: every entry of a discovery result has a nonnegative score, and
its `isMonorepoRoot` flag is exactly the presence of the `workspaces`
field in the parsed content of its own manifest file (the raw value of
which is passed through into the entry). -/
theorem C9_score_nonneg_monorepo_flag (fs : Fs) (st : ServiceState) (sp : FsPath)
    (o : DiscoveryOptions) (hwf : CacheWF fs st) :
    ∀ e ∈ (discoverPackageJsonFiles fs st sp o).1,
      0 ≤ e.score
      ∧ ∃ content pkg, fs.read e.path = some content ∧ fs.decode content = some pkg
          ∧ e.isMonorepoRoot = pkg.workspaces.isSome ∧ e.workspaces = pkg.workspaces := by
  intro e he
  obtain ⟨ho, _, _, _, hsc⟩ := (discoverPackageJsonFiles_WF fs st sp o hwf).2 e he
  obtain ⟨content, pkg, hr, hd, hmk⟩ := ho
  refine ⟨hsc, content, pkg, hr, hd, ?_, ?_⟩
  · have h := congrArg PackageJsonInfo.isMonorepoRoot hmk
    simpa [mkPackageJsonInfo] using h
  · have h := congrArg PackageJsonInfo.workspaces hmk
    simpa [mkPackageJsonInfo] using h

/-- Witness for C9 at a concrete filesystem and an empty cache. -/
theorem C9_witness :
    CacheWF fsRepo ⟨[], []⟩
    ∧ (∀ e ∈ (discoverPackageJsonFiles fsRepo ⟨[], []⟩ ["repo"] {}).1,
        0 ≤ e.score
        ∧ ∃ content pkg, fsRepo.read e.path = some content ∧ fsRepo.decode content = some pkg
            ∧ e.isMonorepoRoot = pkg.workspaces.isSome ∧ e.workspaces = pkg.workspaces) :=
  ⟨emptyCacheWF fsRepo [], C9_score_nonneg_monorepo_flag fsRepo ⟨[], []⟩ ["repo"] {}
    (emptyCacheWF fsRepo [])⟩

/-- C10: `parsePackageJson` returns `none` — not an error — on a read
failure or missing file and on malformed content, and no entry of a
discovery result comes from anything but a successfully read and
decoded manifest, so malformed manifests are silently omitted rather
than aborting the scan. -/
theorem C10_parse_failures_absorbed (fs : Fs) (st : ServiceState) (sp : FsPath)
    (o : DiscoveryOptions) :
    (∀ p d, fs.read p = none → parsePackageJson fs st.workspaceRoots p d = none)
    ∧ (∀ p d content, fs.read p = some content → fs.decode content = none →
        parsePackageJson fs st.workspaceRoots p d = none)
    ∧ (CacheWF fs st → ∀ e ∈ (discoverPackageJsonFiles fs st sp o).1,
        ∃ content pkg, fs.read e.path = some content ∧ fs.decode content = some pkg) := by
  refine ⟨?_, ?_, ?_⟩
  · intro p d h
    unfold parsePackageJson
    rw [h]
  · intro p d content h1 h2
    unfold parsePackageJson
    simp [h1, h2]
  · intro hwf e he
    obtain ⟨⟨content, pkg, hr, hd, _⟩, _⟩ := (discoverPackageJsonFiles_WF fs st sp o hwf).2 e he
    exact ⟨content, pkg, hr, hd⟩

/-- Witness for C10 on a filesystem with a well-formed manifest at
`/a/b`, malformed content at `/a`, and a failing read at the root:
both failing parses return `none` and the discovery result contains
only successfully decoded entries. -/
theorem C10_witness :
    parsePackageJson fsBad (⟨[], []⟩ : ServiceState).workspaceRoots ["package.json"] 2 = none
    ∧ parsePackageJson fsBad (⟨[], []⟩ : ServiceState).workspaceRoots ["a", "package.json"] 1
        = none
    ∧ (∀ e ∈ (discoverPackageJsonFiles fsBad ⟨[], []⟩ ["a", "b"] {}).1,
        ∃ content pkg, fsBad.read e.path = some content ∧ fsBad.decode content = some pkg) :=
  ⟨(C10_parse_failures_absorbed fsBad ⟨[], []⟩ ["a", "b"] {}).1 ["package.json"] 2 rfl,
   (C10_parse_failures_absorbed fsBad ⟨[], []⟩ ["a", "b"] {}).2.1 ["a", "package.json"] 1
     "MALFORMED" rfl rfl,
   (C10_parse_failures_absorbed fsBad ⟨[], []⟩ ["a", "b"] {}).2.2 (emptyCacheWF fsBad [])⟩

/-- C3: for every start path and options (depth limits are naturals,
so `maxDepthUp ≥ 0` always holds), every entry returned by
`discoverPackageJsonFiles` has a directory that is the start path
itself or an ancestor of it; the upward pass runs first and puts the
start path into the shared visited set, so the downward pass returns
immediately and contributes no entries to the result. -/
theorem C3_results_are_ancestors (fs : Fs) (st : ServiceState) (sp : FsPath)
    (o : DiscoveryOptions) (hwf : CacheWF fs st) :
    (∀ e ∈ (discoverPackageJsonFiles fs st sp o).1, e.directory <+: sp)
    ∧ searchDownward fs st.workspaceRoots (resolveOptions o)
        ((resolveOptions o).maxDepthDown + 1) (resolveOptions o).maxDepthDown sp 0
        (searchUpward fs st.workspaceRoots (resolveOptions o).maxDepthUp (sp.length + 1) sp 0
          ⟨[], []⟩)
      = searchUpward fs st.workspaceRoots (resolveOptions o).maxDepthUp (sp.length + 1) sp 0
          ⟨[], []⟩ := by
  refine ⟨?_, searchDownward_visited fs st.workspaceRoots (resolveOptions o)
    ((resolveOptions o).maxDepthDown + 1) (resolveOptions o).maxDepthDown sp 0 _
    (searchUpward_start_visited fs st.workspaceRoots (resolveOptions o).maxDepthUp sp)⟩
  intro e he
  exact ((discoverPackageJsonFiles_WF fs st sp o hwf).2 e he).2.2.1

/-- Witness for C3 at a concrete filesystem and an empty cache. -/
theorem C3_witness :
    CacheWF fsRepo ⟨[], []⟩
    ∧ ((∀ e ∈ (discoverPackageJsonFiles fsRepo ⟨[], []⟩ ["repo"] {}).1, e.directory <+: ["repo"])
       ∧ searchDownward fsRepo (⟨[], []⟩ : ServiceState).workspaceRoots (resolveOptions {})
           ((resolveOptions {}).maxDepthDown + 1) (resolveOptions {}).maxDepthDown ["repo"] 0
           (searchUpward fsRepo (⟨[], []⟩ : ServiceState).workspaceRoots
             (resolveOptions {}).maxDepthUp ((["repo"] : FsPath).length + 1) ["repo"] 0 ⟨[], []⟩)
         = searchUpward fsRepo (⟨[], []⟩ : ServiceState).workspaceRoots
             (resolveOptions {}).maxDepthUp ((["repo"] : FsPath).length + 1) ["repo"] 0 ⟨[], []⟩) :=
  ⟨emptyCacheWF fsRepo [], C3_results_are_ancestors fsRepo ⟨[], []⟩ ["repo"] {}
    (emptyCacheWF fsRepo [])⟩

/-- C5: `shouldUseSpecificPackageJson` returns exactly the decision of
the documented rule on the relevant list of its own analysis — a
manifest comes back iff either exactly one relevant manifest exists
(returned itself) or the list has several entries and the top score
strictly exceeds 1.5 times the second score (top returned); in
particular scores 100 and 50 yield the 100-scored manifest and scores
100 and 80 yield none. -/
theorem C5_shouldUseSpecific_rule :
    (∀ (fs : Fs) (st : ServiceState) (currentPath : FsPath),
      (shouldUseSpecificPackageJson fs st currentPath).1
        = chooseSpecificPackageJson
            (analyzeProjectContext fs st currentPath {}).1.relevantPackageJsons)
    ∧ (∀ (relevant : List PackageJsonInfo) (m : PackageJsonInfo),
        chooseSpecificPackageJson relevant = some m ↔
          (relevant = [m] ∨ ∃ second rest, relevant = m :: second :: rest
            ∧ ((second.score : ℚ) * (1.5 : ℚ) < (m.score : ℚ))))
    ∧ chooseSpecificPackageJson [infoWithScore 100, infoWithScore 50] = some (infoWithScore 100)
    ∧ chooseSpecificPackageJson [infoWithScore 100, infoWithScore 80] = none := by
  refine ⟨fun fs st cp => rfl, chooseSpecific_eq_some_iff, ?_, ?_⟩
  · have h : ((infoWithScore 50).score : ℚ) * (1.5 : ℚ) < ((infoWithScore 100).score : ℚ) := by
      norm_num [infoWithScore]
    simp [chooseSpecificPackageJson, h]
  · have h : ¬ ((infoWithScore 80).score : ℚ) * (1.5 : ℚ) < ((infoWithScore 100).score : ℚ) := by
      norm_num [infoWithScore]
    simp [chooseSpecificPackageJson, h]

/-- C6: project-type classification evaluates its rules in strict
order with first match winning: monorepo if any relevant manifest is a
monorepo root; otherwise workspace when several remain and one is a
known workspace root; otherwise nested when several remain and none
is; otherwise single-package. -/
theorem C6_detectProjectType_order :
    ∀ (packageJsons : List PackageJsonInfo) (workspaceRoot : FsPath),
    (detectProjectType packageJsons workspaceRoot = ProjectType.monorepo
      ↔ packageJsons.any (·.isMonorepoRoot) = true)
    ∧ (detectProjectType packageJsons workspaceRoot = ProjectType.workspace
      ↔ packageJsons.any (·.isMonorepoRoot) = false ∧ 1 < packageJsons.length
          ∧ packageJsons.any (·.isWorkspaceRoot) = true)
    ∧ (detectProjectType packageJsons workspaceRoot = ProjectType.nested
      ↔ packageJsons.any (·.isMonorepoRoot) = false ∧ 1 < packageJsons.length
          ∧ packageJsons.any (·.isWorkspaceRoot) = false)
    ∧ (detectProjectType packageJsons workspaceRoot = ProjectType.singlePackage
      ↔ packageJsons.any (·.isMonorepoRoot) = false ∧ packageJsons.length ≤ 1) := by
  intro pkgs root
  unfold detectProjectType
  by_cases h1 : pkgs.any (·.isMonorepoRoot) = true
  · simp [h1]
  · rw [Bool.not_eq_true] at h1
    by_cases h2 : 1 < pkgs.length
    · by_cases h3 : pkgs.any (·.isWorkspaceRoot) = true
      · simp [h1, h2, h3]
        try omega
      · rw [Bool.not_eq_true] at h3
        simp [h1, h2, h3]
        try omega
    · have h2' : pkgs.length ≤ 1 := Nat.not_lt.mp h2
      simp [h1, h2, h2']

/-- C7: with caching enabled, running discovery twice with the same
start path and options and nothing in between returns the identical
ordered, identically scored result and leaves the state unchanged; the
second call is a cache hit on the key of the first. -/
theorem C7_discover_idempotent (fs : Fs) (st : ServiceState) (sp : FsPath)
    (o : DiscoveryOptions) (hc : (resolveOptions o).cacheResults = true) :
    discoverPackageJsonFiles fs (discoverPackageJsonFiles fs st sp o).2 sp o
      = discoverPackageJsonFiles fs st sp o
    ∧ cacheLookup (discoverPackageJsonFiles fs st sp o).2.cache (sp, resolveOptions o)
      = some (discoverPackageJsonFiles fs st sp o).1 := by
  have hl := discover_lookup_self fs st sp o hc
  refine ⟨?_, hl⟩
  rw [discover_hit fs (discoverPackageJsonFiles fs st sp o).2 sp o _ hc hl]

/-- Witness for C7 at a concrete filesystem and an empty cache. -/
theorem C7_witness :
    (resolveOptions {}).cacheResults = true
    ∧ (discoverPackageJsonFiles fsWs (discoverPackageJsonFiles fsWs stWs ["w"] {}).2 ["w"] {}
        = discoverPackageJsonFiles fsWs stWs ["w"] {}
      ∧ cacheLookup (discoverPackageJsonFiles fsWs stWs ["w"] {}).2.cache (["w"], resolveOptions {})
        = some (discoverPackageJsonFiles fsWs stWs ["w"] {}).1) :=
  ⟨rfl, C7_discover_idempotent fsWs stWs ["w"] {} rfl⟩

end CommandRunner
